import Mathlib

/-!
Verification development for the RAG pipeline of this repository
(server/chunker.py, server/rag.py, server/rag_helpers.py,
server/tasks/chat_tasks.py).

The Python code is shallowly embedded: pure functions become Lean functions,
the Chroma vector store becomes an explicit entry-list state, the Celery retry
machinery becomes an explicit driver over attempt outcomes.  External
collaborators that the claims do not compute with (the spaCy sentence
segmenter, the T5 token counter, the embedding model, the cosine distance of
a query vector) are parameters of the embedding; everything else is translated
from the source.
-/

set_option maxRecDepth 4000

/- ------------------------------------------------------------------
Python string primitives used by the embedded code, implemented
structurally over character lists so that concrete runs evaluate.
------------------------------------------------------------------ -/

/-- Helper for `pySplitWs`: walk the characters, `acc` holding the current
word reversed. -/
def pySplitWsAux : List Char → List Char → List String
  | [], acc => if acc.isEmpty then [] else [String.mk acc.reverse]
  | c :: cs, acc =>
    if c.isWhitespace then
      if acc.isEmpty then pySplitWsAux cs []
      else String.mk acc.reverse :: pySplitWsAux cs []
    else pySplitWsAux cs (c :: acc)

/-- Python `text.split()` with no argument: split on runs of whitespace,
dropping empty pieces. -/
def pySplitWs (s : String) : List String := pySplitWsAux s.data []

/-- Python `sep.join(parts)`. -/
def pyJoin (sep : String) : List String → String
  | [] => ""
  | [x] => x
  | x :: y :: rest => x ++ sep ++ pyJoin sep (y :: rest)

/-- Python `s.strip()`: drop leading and trailing whitespace. -/
def pyStrip (s : String) : String :=
  String.mk (((s.data.dropWhile Char.isWhitespace).reverse.dropWhile
    Char.isWhitespace).reverse)

/-- Helper for `pySplitComma`. -/
def pySplitCommaAux : List Char → List Char → List String
  | [], acc => [String.mk acc.reverse]
  | c :: cs, acc =>
    if c = ',' then String.mk acc.reverse :: pySplitCommaAux cs []
    else pySplitCommaAux cs (c :: acc)

/-- Python `s.split(",")`: split at every comma, keeping empty pieces. -/
def pySplitComma (s : String) : List String := pySplitCommaAux s.data []

/-- Helper for `pyReplace`.  The fuel is the length of the subject, enough
because every step consumes at least one character. -/
def pyReplaceAux (pat rep : List Char) : Nat → List Char → List Char
  | 0, s => s
  | _ + 1, [] => []
  | fuel + 1, c :: cs =>
    if pat ≠ [] ∧ pat.isPrefixOf (c :: cs) then
      rep ++ pyReplaceAux pat rep fuel ((c :: cs).drop pat.length)
    else c :: pyReplaceAux pat rep fuel cs

/-- Python `s.replace(pat, rep)` for the non-empty patterns the source uses:
replace every non-overlapping occurrence, left to right. -/
def pyReplace (s pat rep : String) : String :=
  String.mk (pyReplaceAux pat.data rep.data s.data.length s.data)

/- ------------------------------------------------------------------
server/chunker.py — semantic_token_chunker.

The spaCy sentence segmentation and the T5 token counter are external
models: the embedding takes the segmented sentence list `sents` and the
token-length estimator `tlen` as parameters and translates the loop
body of semantic_token_chunker (lines 43-73) verbatim.  Chunks are kept
as sentence lists; the emitted strings are their " ".join.
------------------------------------------------------------------ -/

/-- Python `l[-n:]` for `n > 0`: the last `min n (length l)` elements. -/
def lastN (n : Nat) (l : List String) : List String := l.drop (l.length - n)

/-- Sum of estimated token lengths of the units of a chunk, the quantity the
source accumulates in `cur_tokens`. -/
def sumTokens (tlen : String → Nat) (c : List String) : Nat := (c.map tlen).sum

/-- The comma fallback's fragment list for one oversized sentence:
`[p.strip() for p in sent.split(",") if p.strip()]`. -/
def commaParts (sent : String) : List String :=
  ((pySplitComma sent).map pyStrip).filter (fun p => p ≠ "")

/-- The running state of semantic_token_chunker: emitted chunks, the current
chunk and its accumulated token count. -/
structure ChunkState where
  chunks : List (List String)
  cur : List String
  tok : Nat
deriving DecidableEq

/-- The body of the inner `for p in parts` loop of semantic_token_chunker
(chunker.py lines 49-56): emit the current chunk when the fragment would
overflow a non-empty chunk, then append the fragment unconditionally. -/
def stepPart (tlen : String → Nat) (max_tokens : Nat) (st : ChunkState)
    (p : String) : ChunkState :=
  let pt := tlen p
  let st' := if max_tokens < st.tok + pt ∧ st.cur ≠ [] then
      { chunks := st.chunks ++ [st.cur], cur := [], tok := 0 }
    else st
  { chunks := st'.chunks, cur := st'.cur ++ [p], tok := st'.tok + pt }

/-- The body of the outer `for sent in sents` loop of semantic_token_chunker
(chunker.py lines 43-68): comma fallback for an oversized sentence, greedy
append while within budget, otherwise emit and seed the next chunk with the
last `overlap_sentences` sentences plus the triggering sentence. -/
def stepSent (tlen : String → Nat) (max_tokens overlap_sentences : Nat)
    (st : ChunkState) (sent : String) : ChunkState :=
  let tl := tlen sent
  if max_tokens < tl then
    (commaParts sent).foldl (stepPart tlen max_tokens) st
  else if st.tok + tl ≤ max_tokens then
    { chunks := st.chunks, cur := st.cur ++ [sent], tok := st.tok + tl }
  else
    let ov := if 0 < overlap_sentences then lastN overlap_sentences st.cur else []
    { chunks := st.chunks ++ [st.cur], cur := ov ++ [sent],
      tok := sumTokens tlen (ov ++ [sent]) }

/-- semantic_token_chunker with chunks kept as sentence/fragment lists: run the
loop from the empty state and flush the final non-empty current chunk. -/
def chunkerParts (tlen : String → Nat) (sents : List String)
    (max_tokens overlap_sentences : Nat) : List (List String) :=
  let st := sents.foldl (stepSent tlen max_tokens overlap_sentences) ⟨[], [], 0⟩
  if st.cur = [] then st.chunks else st.chunks ++ [st.cur]

/-- semantic_token_chunker (chunker.py lines 21-73): the emitted chunk strings,
each the `" ".join` of its units. -/
def semantic_token_chunker (tlen : String → Nat) (sents : List String)
    (max_tokens overlap_sentences : Nat) : List String :=
  (chunkerParts tlen sents max_tokens overlap_sentences).map (pyJoin " ")

/- ------------------------------------------------------------------
server/rag.py — the ask pipeline: token estimator, prompt template,
truncation loop, short-circuit.
------------------------------------------------------------------ -/

/-- estimate_tokens (rag.py lines 57-59): `len(text.split()) // 2`. -/
def estimate_tokens (text : String) : Nat := (pySplitWs text).length / 2

/-- rag.py line 61. -/
def MAX_CONTEXT_TOKENS : Nat := 4096

/-- retrieve_chat_history (rag.py lines 71-93): of the session's messages
sorted newest-first (as the Mongo query returns them), take the newest
`max_turns * 2` and reverse to oldest-first. -/
def retrieve_chat_history (msgs_desc : List String) (max_turns : Nat) :
    List String :=
  (msgs_desc.take (max_turns * 2)).reverse

/-- The f-string `base_prompt_template` of rag_ask (rag.py lines 274-301),
with the retrieved context and the literal query interpolated; the doubled
braces of the source leave the literal history placeholder in the text. -/
def base_prompt_template (context query : String) : String :=
  "\n    # ROLE\n    You are a specialist assistant answering questions based *only* on the provided context.\n    \n    # INSTRUCTIONS\n    1.  Read the 'RAG Context' and the 'Current User Query'.\n    2.  Use the 'Conversation History' to understand the user's question, especially if it's a follow-up.\n    3.  Formulate an answer that directly responds to the 'Current User Query'.\n    4.  **IMPORTANT:** Base your answer **strictly** on the information found in the 'RAG Context'.\n    5.  If the answer is not in the context, state that you cannot find the information in the provided document.\n    6.  Do not use any external knowledge.\n    \n    # RAG CONTEXT (Document Snippets)\n    ---\n    " ++ context ++ "\n    ---\n    \n    # CONVERSATION HISTORY\n    ---\n    {history_placeholder}\n    ---\n    \n    # CURRENT USER QUERY\n    User: " ++ query ++ "\n    \n    # ANSWER\n    Assistant:\n    "

/-- One prompt rendering of rag_ask (rag.py lines 308 and 325):
`base_prompt_template.replace("...placeholder...", history)`. -/
def prompt_render (context query history : String) : String :=
  pyReplace (base_prompt_template context query) "{history_placeholder}" history

/-- The token-budget truncation loop of rag_ask (rag.py lines 306-323),
returning the final history list: while the rendered prompt's estimate
exceeds the budget, pop the two oldest messages; once fewer than two remain,
the history string is emptied and the loop stops.  rag_ask runs it with
`est = estimate_tokens`, `render` the prompt template of the request, and
`budget = MAX_CONTEXT_TOKENS - 100`. -/
def truncation_loop (est : String → Nat) (render : String → String)
    (budget : Nat) (hist : List String) : List String :=
  if est (render (pyJoin "\n" hist)) ≤ budget then hist
  else if h : 2 ≤ hist.length then
    truncation_loop est render budget (hist.drop 2)
  else []
termination_by hist.length
decreasing_by
  simp only [List.length_drop]
  omega

/-- Iteration count of the truncation loop: the number of times the loop body
evaluates the rendered prompt's estimate. -/
def truncation_loop_steps (est : String → Nat) (render : String → String)
    (budget : Nat) (hist : List String) : Nat :=
  if est (render (pyJoin "\n" hist)) ≤ budget then 1
  else if h : 2 ≤ hist.length then
    1 + truncation_loop_steps est render budget (hist.drop 2)
  else 1
termination_by hist.length
decreasing_by
  simp only [List.length_drop]
  omega

/-- Result of one ask call, as far as the generation collaborator is
concerned: either the fixed fallback answer without any generation call, or
one generation call with the final prompt and the raw context. -/
inductive AskOutcome where
  | fallback (answer : String)
  | generated (prompt : String) (context : String)
deriving DecidableEq

/-- rag.py line 269. -/
def no_context_answer : String := "No relevant context found for this chat."

/-- Number of generation-collaborator calls an outcome incurs. -/
def generation_calls : AskOutcome → Nat
  | .fallback _ => 0
  | .generated _ _ => 1

/-- The decision core of rag_ask (rag.py lines 262-328), after the query
embedding, the vector query and the history fetch: `docs` are the retrieved
chunk texts, `formatted_history` the fetched messages rendered as
role-prefixed lines.  Zero docs and empty history short-circuit to the fixed
answer; otherwise the truncated prompt goes to the generation collaborator
together with the raw context. -/
def rag_ask_core (docs : List String) (formatted_history : List String)
    (query : String) : AskOutcome :=
  if docs.isEmpty ∧ formatted_history.isEmpty then .fallback no_context_answer
  else
    let context := pyJoin "\n\n" docs
    let final_history := truncation_loop estimate_tokens
      (prompt_render context query) (MAX_CONTEXT_TOKENS - 100) formatted_history
    .generated (prompt_render context query (pyJoin "\n" final_history)) context

/- ------------------------------------------------------------------
server/rag_helpers.py and server/tasks/chat_tasks.py — the Chroma store,
the store helper and the queued ingestion task.

The Chroma collection is a list of entries; documents and embeddings are
dynamically typed in the source, so an entry payload is either a text or
a numeric vector (the claims never compute with the float values, which
are carried as integers).  collection.add and the hard metadata filter of
collection.query are modelled after chromadb's documented semantics.
------------------------------------------------------------------ -/

/-- A dynamically typed Chroma payload: a document text or a vector. -/
inductive ChromaVal where
  | str (s : String)
  | vec (v : List Int)
deriving DecidableEq

/-- One entry of the chat_embeddings collection: id, document, embedding and
the metadata written by store_embeddings_in_chroma. -/
structure ChromaEntry where
  id : String
  document : ChromaVal
  embedding : ChromaVal
  chat_id : String
  chunk_index : Nat
deriving DecidableEq

/-- chromadb `collection.add`: each entry whose id is not yet in the
collection is inserted; an entry whose id is already present is skipped with
a warning — add never overwrites an existing entry. -/
def chroma_add (st : List ChromaEntry) (new : List ChromaEntry) :
    List ChromaEntry :=
  new.foldl
    (fun acc e => if acc.any (fun x => x.id == e.id) then acc else acc ++ [e])
    st

/-- Insert an entry into a list that is already ranked by ascending
distance. -/
def insertRanked (dist : ChromaEntry → Int) (e : ChromaEntry) :
    List ChromaEntry → List ChromaEntry
  | [] => [e]
  | x :: xs =>
    if dist e < dist x then e :: x :: xs else x :: insertRanked dist e xs

/-- Rank entries by ascending distance (insertion sort). -/
def rankByDistance (dist : ChromaEntry → Int) :
    List ChromaEntry → List ChromaEntry
  | [] => []
  | x :: xs => insertRanked dist x (rankByDistance dist xs)

/-- The session-scoped vector query of rag_ask (rag.py lines 254-260):
`collection.query` with a where clause on chat_id.  The where clause is a
hard metadata filter; the matching entries are ranked by ascending distance
to the query vector — `dist` abstracts the cosine distance induced by the
query embedding — and at most `n_results` are returned. -/
def chroma_query (st : List ChromaEntry) (dist : ChromaEntry → Int)
    (where_chat_id : String) (n_results : Nat) : List ChromaEntry :=
  (rankByDistance dist
    (st.filter (fun e => e.chat_id == where_chat_id))).take n_results

/-- The dict store_embeddings_in_chroma returns. -/
structure StoreResult where
  chat_id : String
  num_chunks_stored : Nat
deriving DecidableEq

/-- The parallel ids/documents/embeddings/metadatas lists that
store_embeddings_in_chroma passes to `collection.add` (rag_helpers.py lines
169-175), combined into entries: deterministic ids `chat_id ++ "_" ++ i` and
per-chunk metadata of chat_id and chunk_index. -/
def store_entries (chat_id : String) (chunks embeddings : List ChromaVal) :
    List ChromaEntry :=
  ((chunks.zip embeddings).enum).map fun p =>
    { id := chat_id ++ "_" ++ toString p.1
      document := p.2.1
      embedding := p.2.2
      chat_id := chat_id
      chunk_index := p.1 }

/-- store_embeddings_in_chroma (rag_helpers.py lines 160-182): validate that
chunks and embeddings are the same non-empty length, build the deterministic
ids with per-chunk metadata, and `collection.add` the entries.  The chunks
and embeddings parameters are dynamically typed in the source, hence the
ChromaVal payloads. -/
def store_embeddings_in_chroma (chat_id : String) (chunks : List ChromaVal)
    (embeddings : List ChromaVal) (st : List ChromaEntry) :
    Except String (List ChromaEntry × StoreResult) :=
  if chunks.isEmpty ∨ embeddings.isEmpty ∨ chunks.length ≠ embeddings.length
  then .error "Chunks and embeddings must be same non-empty length"
  else .ok (chroma_add st (store_entries chat_id chunks embeddings),
    { chat_id := chat_id, num_chunks_stored := chunks.length })

/-- The store call of embed_chat_task (tasks/chat_tasks.py line 25):
`store_embeddings_in_chroma(chat_id, embeddings, chunks)` — the embedding
vectors are passed in the chunks/documents position and the chunk texts in
the embeddings position. -/
def embed_chat_task_store (chat_id : String) (chunks : List String)
    (embeddings : List (List Int)) (st : List ChromaEntry) :
    Except String (List ChromaEntry × StoreResult) :=
  store_embeddings_in_chroma chat_id (embeddings.map ChromaVal.vec)
    (chunks.map ChromaVal.str) st

/-- The dict a successful embed_chat_task returns. -/
structure TaskSuccess where
  chat_id : String
  chunks : Nat
deriving DecidableEq

/-- One body run of embed_chat_task (tasks/chat_tasks.py lines 19-27):
run embed_chat_helper — its outcome, chunking and embedding included, is the
`helper_outcome` parameter — raise when it produced no embeddings, and only
then store.  A failing attempt returns an error without touching the store
state. -/
def embed_chat_task_attempt (chat_id : String)
    (helper_outcome : Except String (List (List Int) × List String))
    (st : List ChromaEntry) : Except String (List ChromaEntry × TaskSuccess) :=
  match helper_outcome with
  | .error e => .error e
  | .ok (embeddings, chunks) =>
    if embeddings.isEmpty then .error "No chunks found for this chat"
    else
      match embed_chat_task_store chat_id chunks embeddings st with
      | .error e => .error e
      | .ok (st', _) => .ok (st', { chat_id := chat_id, chunks := chunks.length })

/-- How a queued task run ended: success or failure, with the number of
attempts the body was run. -/
inductive TaskReport (α : Type) where
  | succeeded (attempts : Nat) (value : α)
  | failed (attempts : Nat) (error : String)
deriving DecidableEq

/-- The Celery retry driver for a task declared with
`autoretry_for=(Exception,), max_retries=m` and an explicit `self.retry` in
its handler (tasks/chat_tasks.py line 10): the body runs, and on an
exception it is re-invoked after the backoff until the `remaining` retry
budget is spent, so the body runs at most `m + 1` times; a failing attempt
leaves the state as it was.  `made` counts the attempts already made. -/
def run_with_retries {σ α : Type}
    (attempt : Nat → σ → Except String (σ × α)) (st : σ) :
    Nat → Nat → σ × TaskReport α
  | made, remaining =>
    match attempt made st with
    | .ok (st', v) => (st', .succeeded (made + 1) v)
    | .error e =>
      match remaining with
      | 0 => (st, .failed (made + 1) e)
      | r + 1 => run_with_retries attempt st (made + 1) r

/-- tasks/chat_tasks.py line 10: `max_retries=1`. -/
def celery_max_retries : Nat := 1

/-- A full queued run of embed_chat_task for one chat: the attempts' helper
outcomes (chunk/embed results or failures) are indexed by attempt number. -/
def embed_chat_task_run (chat_id : String)
    (helper_outcomes : Nat → Except String (List (List Int) × List String))
    (st : List ChromaEntry) : List ChromaEntry × TaskReport TaskSuccess :=
  run_with_retries (fun n s => embed_chat_task_attempt chat_id (helper_outcomes n) s)
    st 0 celery_max_retries

/- ------------------------------------------------------------------
Shared lemmas about the truncation loop.
------------------------------------------------------------------ -/

/-- Exit analysis of the truncation loop, by strong induction on the history
length: either the history was exhausted to empty, or the loop stopped at a
suffix of the history obtained by dropping whole leading pairs, and the
prompt rendered with that suffix fits the budget. -/
theorem truncation_loop_cases (est : String → Nat) (render : String → String)
    (budget : Nat) :
    ∀ (n : Nat) (hist : List String), hist.length ≤ n →
      truncation_loop est render budget hist = [] ∨
      ∃ j, truncation_loop est render budget hist = hist.drop (2 * j) ∧
        est (render (pyJoin "\n" (hist.drop (2 * j)))) ≤ budget := by
  intro n
  induction n with
  | zero =>
    intro hist hlen
    have hnil : hist = [] := List.eq_nil_of_length_eq_zero (Nat.le_zero.mp hlen)
    subst hnil
    rw [truncation_loop]
    split
    · next hfit => exact Or.inr ⟨0, rfl, by simpa using hfit⟩
    · next hfit =>
      rw [dif_neg (by simp)]
      exact Or.inl rfl
  | succ n ih =>
    intro hist hlen
    rw [truncation_loop]
    split
    · next hfit => exact Or.inr ⟨0, by simp, by simpa using hfit⟩
    · next hfit =>
      split
      · next h2 =>
        rcases ih (hist.drop 2) (by simp only [List.length_drop]; omega)
          with h | ⟨j, hj, hb⟩
        · exact Or.inl h
        · refine Or.inr ⟨j + 1, ?_, ?_⟩
          · rw [hj, List.drop_drop]
            congr 1
            omega
          · have hh : hist.drop (2 * (j + 1)) = (hist.drop 2).drop (2 * j) := by
              rw [List.drop_drop]
              congr 1
              omega
            rw [hh]
            exact hb
      · exact Or.inl rfl

/-- `truncation_loop_cases` at the history's own length. -/
theorem truncation_loop_spec (est : String → Nat) (render : String → String)
    (budget : Nat) (hist : List String) :
    truncation_loop est render budget hist = [] ∨
    ∃ j, truncation_loop est render budget hist = hist.drop (2 * j) ∧
      est (render (pyJoin "\n" (hist.drop (2 * j)))) ≤ budget :=
  truncation_loop_cases est render budget hist.length hist le_rfl

/-- Step-count bound for the truncation loop, by strong induction on the
history length. -/
theorem truncation_loop_steps_bound_aux (est : String → Nat)
    (render : String → String) (budget : Nat) :
    ∀ (n : Nat) (hist : List String), hist.length ≤ n →
      truncation_loop_steps est render budget hist ≤ hist.length / 2 + 1 := by
  intro n
  induction n with
  | zero =>
    intro hist hlen
    rw [truncation_loop_steps]
    split
    · omega
    · rw [dif_neg (by omega)]
      omega
  | succ n ih =>
    intro hist hlen
    rw [truncation_loop_steps]
    split
    · omega
    · split
      · next h2 =>
        have hrec := ih (hist.drop 2) (by simp only [List.length_drop]; omega)
        rw [List.length_drop] at hrec
        omega
      · omega

/-- C10: the token-budget truncation loop of rag_ask terminates for every
initial history list and every value of the token estimator; each iteration
either exits or removes two messages, and when fewer than two remain it exits
unconditionally, so the number of loop iterations is bounded by half the
initial history length plus one. -/
theorem truncation_loop_steps_bound (est : String → Nat)
    (render : String → String) (budget : Nat) (hist : List String) :
    truncation_loop_steps est render budget hist ≤ hist.length / 2 + 1 :=
  truncation_loop_steps_bound_aux est render budget hist.length hist le_rfl

/-- C5 (amended): truncation removes only whole leading pairs, so the final
history list is either emptied by the exhaustion branch or has the parity of
the fetched history; in particular the history block of the assembled prompt
contains an even number of messages whenever the fetched history does. -/
theorem truncation_parity_preserved (est : String → Nat)
    (render : String → String) (budget : Nat) (hist : List String)
    (heven : hist.length % 2 = 0) :
    (truncation_loop est render budget hist).length % 2 = 0 := by
  rcases truncation_loop_spec est render budget hist with h | ⟨j, hj, _⟩
  · simp [h]
  · rw [hj, List.length_drop]
    omega

/-- Witness for `truncation_parity_preserved` at a two-message history. -/
theorem truncation_parity_preserved_witness :
    (truncation_loop estimate_tokens (prompt_render "" "")
      (MAX_CONTEXT_TOKENS - 100) ["User: a", "Assistant: b"]).length % 2 = 0 :=
  truncation_parity_preserved estimate_tokens (prompt_render "" "")
    (MAX_CONTEXT_TOKENS - 100) ["User: a", "Assistant: b"] (by decide)

/-- C5 (counterexample): a fetched history of one message — the Mongo fetch
bounds the count by max_turns * 2 but does not make it even — that fits the
budget survives the loop untouched, so the history block of the final prompt
is built from an odd number of messages, a dangling half-pair. -/
theorem truncation_odd_history_cex :
    retrieve_chat_history ["User: hi"] 5 = ["User: hi"] ∧
    (truncation_loop estimate_tokens (prompt_render "" "")
      (MAX_CONTEXT_TOKENS - 100) ["User: hi"]).length % 2 = 1 := by
  refine ⟨rfl, ?_⟩
  rw [truncation_loop]
  split
  · decide
  · next hfit => exact absurd (by decide) hfit

/-- C6: for every retrieved context, query and initial history, the prompt
finally sent to generation fits the budget MAX_CONTEXT_TOKENS - 100 unless
the candidate history has been emptied by the exhaustion branch, and the
final history is obtained from the fetched one by dropping whole oldest
pairs only — the rendering function, and with it the retrieved-context
block, is the same at every iteration and is never truncated. -/
theorem rag_prompt_budget (ctx q : String) (hist : List String) :
    (truncation_loop estimate_tokens (prompt_render ctx q)
        (MAX_CONTEXT_TOKENS - 100) hist ≠ [] →
      estimate_tokens (prompt_render ctx q (pyJoin "\n"
        (truncation_loop estimate_tokens (prompt_render ctx q)
          (MAX_CONTEXT_TOKENS - 100) hist))) ≤ MAX_CONTEXT_TOKENS - 100) ∧
    (truncation_loop estimate_tokens (prompt_render ctx q)
        (MAX_CONTEXT_TOKENS - 100) hist = [] ∨
      ∃ j, truncation_loop estimate_tokens (prompt_render ctx q)
          (MAX_CONTEXT_TOKENS - 100) hist = hist.drop (2 * j)) := by
  rcases truncation_loop_spec estimate_tokens (prompt_render ctx q)
      (MAX_CONTEXT_TOKENS - 100) hist with h | ⟨j, hj, hb⟩
  · exact ⟨fun hne => absurd h hne, Or.inl h⟩
  · refine ⟨fun _ => ?_, Or.inr ⟨j, hj⟩⟩
    rw [hj]
    exact hb

/-- C7: when the vector query returns zero chunks and the fetched history is
empty, ask returns the fixed no-context answer as a success outcome with zero
generation calls; in every other case the generation collaborator is invoked
exactly once. -/
theorem rag_ask_short_circuit (docs formatted_history : List String)
    (query : String) :
    (docs = [] ∧ formatted_history = [] →
      rag_ask_core docs formatted_history query =
        AskOutcome.fallback no_context_answer ∧
      generation_calls (rag_ask_core docs formatted_history query) = 0) ∧
    (¬ (docs = [] ∧ formatted_history = []) →
      ∃ p c, rag_ask_core docs formatted_history query =
          AskOutcome.generated p c ∧
        generation_calls (rag_ask_core docs formatted_history query) = 1) := by
  constructor
  · rintro ⟨hd, hh⟩
    subst hd
    subst hh
    exact ⟨rfl, rfl⟩
  · intro hne
    have hcond : ¬ (docs.isEmpty ∧ formatted_history.isEmpty) := by
      rcases docs with _ | ⟨d, ds⟩
      · rcases formatted_history with _ | ⟨m, ms⟩
        · exact absurd ⟨rfl, rfl⟩ hne
        · simp
      · simp
    unfold rag_ask_core
    rw [if_neg hcond]
    exact ⟨_, _, rfl, rfl⟩

/- ------------------------------------------------------------------
Lemmas about the Chroma collection model.
------------------------------------------------------------------ -/

/-- Unfolding one step of `chroma_add`. -/
theorem chroma_add_cons (st : List ChromaEntry) (x : ChromaEntry)
    (xs : List ChromaEntry) :
    chroma_add st (x :: xs) =
      chroma_add (if st.any (fun y => y.id == x.id) then st else st ++ [x]) xs :=
  rfl

/-- An id present before `collection.add` is present after it. -/
theorem chroma_add_any_mono (p : ChromaEntry → Bool) :
    ∀ (new st : List ChromaEntry), st.any p = true →
      (chroma_add st new).any p = true := by
  intro new
  induction new with
  | nil => intro st h; exact h
  | cons x xs ih =>
    intro st h
    rw [chroma_add_cons]
    apply ih
    split
    · exact h
    · rw [List.any_append]
      simp [h]

/-- After `collection.add`, every added entry's id is present (it was either
inserted or skipped because the id already existed). -/
theorem chroma_add_present :
    ∀ (new st : List ChromaEntry), ∀ e ∈ new,
      (chroma_add st new).any (fun x => x.id == e.id) = true := by
  intro new
  induction new with
  | nil => intro st e he; cases he
  | cons x xs ih =>
    intro st e he
    rcases List.mem_cons.mp he with rfl | he'
    · rw [chroma_add_cons]
      apply chroma_add_any_mono
      split
      · next hpres => exact hpres
      · rw [List.any_append]
        simp
    · rw [chroma_add_cons]
      exact ih _ e he'

/-- `collection.add` of entries whose ids are all already present changes
nothing. -/
theorem chroma_add_all_present :
    ∀ (new st : List ChromaEntry),
      (∀ e ∈ new, st.any (fun x => x.id == e.id) = true) →
      chroma_add st new = st := by
  intro new
  induction new with
  | nil => intro st _; rfl
  | cons x xs ih =>
    intro st h
    rw [chroma_add_cons, if_pos (h x (List.mem_cons_self x xs))]
    exact ih st (fun e he => h e (List.mem_cons_of_mem x he))

/-- Membership does not grow under ranked insertion. -/
theorem mem_insertRanked (dist : ChromaEntry → Int) (e a : ChromaEntry) :
    ∀ l : List ChromaEntry, a ∈ insertRanked dist e l → a = e ∨ a ∈ l := by
  intro l
  induction l with
  | nil =>
    intro h
    rw [insertRanked] at h
    exact Or.inl (List.mem_singleton.mp h)
  | cons x xs ih =>
    intro h
    rw [insertRanked] at h
    split at h
    · rcases List.mem_cons.mp h with h' | h'
      · exact Or.inl h'
      · exact Or.inr h'
    · rcases List.mem_cons.mp h with h' | h'
      · exact Or.inr (h' ▸ List.mem_cons_self x xs)
      · rcases ih h' with h'' | h''
        · exact Or.inl h''
        · exact Or.inr (List.mem_cons_of_mem x h'')

/-- Membership is preserved by the distance ranking. -/
theorem mem_rankByDistance (dist : ChromaEntry → Int) (a : ChromaEntry) :
    ∀ l : List ChromaEntry, a ∈ rankByDistance dist l → a ∈ l := by
  intro l
  induction l with
  | nil => intro h; rw [rankByDistance] at h; cases h
  | cons x xs ih =>
    intro h
    rw [rankByDistance] at h
    rcases mem_insertRanked dist x a _ h with h' | h'
    · exact h' ▸ List.mem_cons_self x xs
    · exact List.mem_cons_of_mem x (ih h')

/-- C1: the session-scoped vector query — the where clause on chat_id is a
hard filter — returns only entries whose metadata session id is the queried
one, so for distinct sessions A and B, under every distance function induced
by a query vector and every top_k, no entry of B is ever returned for A. -/
theorem chroma_query_no_cross_session (st : List ChromaEntry)
    (dist : ChromaEntry → Int) (A B : String) (top_k : Nat) (hAB : A ≠ B) :
    ∀ e ∈ chroma_query st dist A top_k, e.chat_id = A ∧ e.chat_id ≠ B := by
  intro e he
  have h1 : e ∈ rankByDistance dist (st.filter fun x => x.chat_id == A) :=
    List.take_subset _ _ he
  have h2 : e ∈ st.filter fun x => x.chat_id == A :=
    mem_rankByDistance dist e _ h1
  have h3 : e.chat_id = A := by
    have := (List.mem_filter.mp h2).2
    simpa using this
  refine ⟨h3, ?_⟩
  rw [h3]
  exact hAB

/-- Witness for `chroma_query_no_cross_session`: a two-session store, the
session-a entry is returned for session a and carries session a's id. -/
theorem chroma_query_no_cross_session_witness :
    (⟨"a_0", ChromaVal.str "x", ChromaVal.vec [1], "a", 0⟩ : ChromaEntry).chat_id
        = "a" ∧
    (⟨"a_0", ChromaVal.str "x", ChromaVal.vec [1], "a", 0⟩ : ChromaEntry).chat_id
        ≠ "b" :=
  chroma_query_no_cross_session
    [⟨"a_0", ChromaVal.str "x", ChromaVal.vec [1], "a", 0⟩,
     ⟨"b_0", ChromaVal.str "y", ChromaVal.vec [2], "b", 0⟩]
    (fun _ => 0) "a" "b" 3 (by decide)
    ⟨"a_0", ChromaVal.str "x", ChromaVal.vec [1], "a", 0⟩ (by decide)

/-- C3: the store operation is idempotent on the observable index state —
re-running store_embeddings_in_chroma with the same session and the same
chunk and vector content on the state the first run produced returns exactly
that state (same ids, same stored payloads, same entry count) and the same
result dict.  (collection.add skips the already-present deterministic ids, so
the identical content leaves the state observably identical to one run.) -/
theorem store_embeddings_idempotent (chat_id : String)
    (chunks embeddings : List ChromaVal) (st st1 : List ChromaEntry)
    (r : StoreResult)
    (h : store_embeddings_in_chroma chat_id chunks embeddings st =
      Except.ok (st1, r)) :
    store_embeddings_in_chroma chat_id chunks embeddings st1 =
      Except.ok (st1, r) := by
  unfold store_embeddings_in_chroma at h ⊢
  split at h
  · cases h
  · next hval =>
    rw [if_neg hval]
    simp only [Except.ok.injEq, Prod.mk.injEq] at h
    obtain ⟨hst, hr⟩ := h
    subst hst
    rw [chroma_add_all_present _ _
      (fun e he => chroma_add_present _ st e he), hr]

/-- Witness for `store_embeddings_idempotent`: a one-chunk store re-run on
its own output state. -/
theorem store_embeddings_idempotent_witness :
    store_embeddings_in_chroma "s" [ChromaVal.str "x"] [ChromaVal.vec [1]]
      [⟨"s_0", ChromaVal.str "x", ChromaVal.vec [1], "s", 0⟩] =
    Except.ok ([⟨"s_0", ChromaVal.str "x", ChromaVal.vec [1], "s", 0⟩],
      ⟨"s", 1⟩) :=
  store_embeddings_idempotent "s" [ChromaVal.str "x"] [ChromaVal.vec [1]]
    [] [⟨"s_0", ChromaVal.str "x", ChromaVal.vec [1], "s", 0⟩] ⟨"s", 1⟩ rfl

/-- C2: the queued ingestion path evaluated at a one-chunk session.  The call
at tasks/chat_tasks.py line 25 passes (embeddings, chunks) to
store_embeddings_in_chroma(chat_id, chunks, embeddings), so the entry stored
at id "s_0" holds the vector as its document and the chunk text as its
vector — not the chunk text c[0] as its document, as the claim states. -/
theorem embed_chat_task_store_swaps_payloads :
    embed_chat_task_store "s" ["hello"] [[1, 2]] [] =
      Except.ok ([⟨"s_0", ChromaVal.vec [1, 2], ChromaVal.str "hello", "s", 0⟩],
        ⟨"s", 1⟩) ∧
    ChromaVal.vec [1, 2] ≠ ChromaVal.str "hello" := by
  refine ⟨rfl, ?_⟩
  intro hcontra
  cases hcontra

/-- C8: an ingestion task whose chunk/embed step fails on the initial attempt
and again on the single retry (max_retries = 1) is reported failed after
exactly 2 attempts, and the index state is exactly as before the run — the
store step runs only after a successful helper outcome. -/
theorem embed_chat_task_double_failure (chat_id : String)
    (helper_outcomes : Nat → Except String (List (List Int) × List String))
    (st : List ChromaEntry) (e0 e1 : String)
    (h0 : helper_outcomes 0 = Except.error e0)
    (h1 : helper_outcomes 1 = Except.error e1) :
    embed_chat_task_run chat_id helper_outcomes st =
      (st, TaskReport.failed 2 e1) := by
  unfold embed_chat_task_run celery_max_retries
  rw [run_with_retries]
  simp only [embed_chat_task_attempt, h0]
  rw [run_with_retries]
  simp only [embed_chat_task_attempt, h1]

/-- Witness for `embed_chat_task_double_failure`: both attempts fail with a
concrete embedding error on the empty index. -/
theorem embed_chat_task_double_failure_witness :
    embed_chat_task_run "c" (fun _ => Except.error "embed backend down") [] =
      ([], TaskReport.failed 2 "embed backend down") :=
  embed_chat_task_double_failure "c"
    (fun _ => Except.error "embed backend down") []
    "embed backend down" "embed backend down" rfl rfl

/- ------------------------------------------------------------------
Lemmas about the chunker loop.
------------------------------------------------------------------ -/

theorem sumTokens_append (tlen : String → Nat) (a b : List String) :
    sumTokens tlen (a ++ b) = sumTokens tlen a + sumTokens tlen b := by
  simp [sumTokens]

theorem sumTokens_nil (tlen : String → Nat) : sumTokens tlen [] = 0 := rfl

theorem sumTokens_singleton (tlen : String → Nat) (s : String) :
    sumTokens tlen [s] = tlen s := by
  simp [sumTokens]

theorem lastN_length_le (n : Nat) (l : List String) : (lastN n l).length ≤ n := by
  rw [lastN, List.length_drop]
  omega

/-- The chunk-budget property: a chunk either fits the token budget or
consists of at most overlap + 1 units (an overlap seed plus its triggering
sentence, or a single oversized comma fragment). -/
def BoundOK (tlen : String → Nat) (max_tokens ov : Nat) (c : List String) :
    Prop :=
  sumTokens tlen c ≤ max_tokens ∨ c.length ≤ ov + 1

/-- The loop invariant for the budget property: the token accumulator is the
sum over the current chunk, and every chunk — emitted or current — satisfies
BoundOK. -/
structure ChunkBoundInv (tlen : String → Nat) (max_tokens ov : Nat)
    (st : ChunkState) : Prop where
  tok_eq : st.tok = sumTokens tlen st.cur
  chunks_ok : ∀ c ∈ st.chunks, BoundOK tlen max_tokens ov c
  cur_ok : BoundOK tlen max_tokens ov st.cur

theorem stepPart_inv {tlen : String → Nat} {max_tokens ov : Nat}
    {st : ChunkState} (p : String)
    (h : ChunkBoundInv tlen max_tokens ov st) :
    ChunkBoundInv tlen max_tokens ov (stepPart tlen max_tokens st p) := by
  by_cases hc : max_tokens < st.tok + tlen p ∧ st.cur ≠ []
  · simp only [stepPart, if_pos hc]
    refine ⟨?_, ?_, ?_⟩
    · simp [sumTokens]
    · intro c hcm
      rcases List.mem_append.mp hcm with h' | h'
      · exact h.chunks_ok c h'
      · rw [List.mem_singleton.mp h']
        exact h.cur_ok
    · exact Or.inr (by simp)
  · simp only [stepPart, if_neg hc]
    refine ⟨?_, h.chunks_ok, ?_⟩
    · rw [sumTokens_append, sumTokens_singleton, h.tok_eq]
    · rcases Decidable.not_and_iff_or_not.mp hc with h' | h'
      · exact Or.inl (by
          rw [sumTokens_append, sumTokens_singleton, ← h.tok_eq]
          omega)
      · have : st.cur = [] := Decidable.not_not.mp h'
        rw [this]
        exact Or.inr (by simp)

theorem foldl_stepPart_inv {tlen : String → Nat} {max_tokens ov : Nat} :
    ∀ (ps : List String) (st : ChunkState),
      ChunkBoundInv tlen max_tokens ov st →
      ChunkBoundInv tlen max_tokens ov
        (ps.foldl (stepPart tlen max_tokens) st) := by
  intro ps
  induction ps with
  | nil => intro st h; exact h
  | cons p ps ih =>
    intro st h
    rw [List.foldl_cons]
    exact ih _ (stepPart_inv p h)

theorem stepSent_inv {tlen : String → Nat} {max_tokens ov : Nat}
    {st : ChunkState} (sent : String)
    (h : ChunkBoundInv tlen max_tokens ov st) :
    ChunkBoundInv tlen max_tokens ov (stepSent tlen max_tokens ov st sent) := by
  simp only [stepSent]
  split
  · exact foldl_stepPart_inv _ _ h
  · split
    · next hfit =>
      refine ⟨?_, h.chunks_ok, ?_⟩
      · rw [sumTokens_append, sumTokens_singleton, h.tok_eq]
      · exact Or.inl (by
          rw [sumTokens_append, sumTokens_singleton, ← h.tok_eq]
          omega)
    · refine ⟨rfl, ?_, ?_⟩
      · intro c hcm
        rcases List.mem_append.mp hcm with h' | h'
        · exact h.chunks_ok c h'
        · rw [List.mem_singleton.mp h']
          exact h.cur_ok
      · refine Or.inr ?_
        rw [List.length_append, List.length_singleton]
        have : (if 0 < ov then lastN ov st.cur else []).length ≤ ov := by
          split
          · exact lastN_length_le ov st.cur
          · simp
        omega

theorem foldl_stepSent_inv {tlen : String → Nat} {max_tokens ov : Nat} :
    ∀ (sents : List String) (st : ChunkState),
      ChunkBoundInv tlen max_tokens ov st →
      ChunkBoundInv tlen max_tokens ov
        (sents.foldl (stepSent tlen max_tokens ov) st) := by
  intro sents
  induction sents with
  | nil => intro st h; exact h
  | cons s ss ih =>
    intro st h
    rw [List.foldl_cons]
    exact ih _ (stepSent_inv s h)

theorem chunkerParts_bound (tlen : String → Nat) (sents : List String)
    (max_tokens ov : Nat) :
    ∀ c ∈ chunkerParts tlen sents max_tokens ov,
      BoundOK tlen max_tokens ov c := by
  have hbase : ChunkBoundInv tlen max_tokens ov ⟨[], [], 0⟩ :=
    ⟨rfl, (fun c hc => nomatch hc), Or.inl (by simp [sumTokens])⟩
  have hinv := foldl_stepSent_inv sents ⟨[], [], 0⟩ hbase
  simp only [chunkerParts]
  split
  · exact hinv.chunks_ok
  · intro c hc
    rcases List.mem_append.mp hc with h' | h'
    · exact hinv.chunks_ok c h'
    · rw [List.mem_singleton.mp h']
      exact hinv.cur_ok

/-- C4 (amended): every emitted chunk either has total estimated token length
(the sum of its units' estimates, the quantity the loop accumulates) at most
max_tokens, or consists of at most overlap_sentences + 1 units — a single
atomic comma fragment that alone exceeds the budget, or an overlap seed (the
carried-over sentences plus the triggering sentence) that already exceeds the
budget when formed and is emitted unsplit. -/
theorem chunker_token_bound (tlen : String → Nat) (sents : List String)
    (max_tokens overlap_sentences : Nat) :
    ∀ c ∈ chunkerParts tlen sents max_tokens overlap_sentences,
      sumTokens tlen c ≤ max_tokens ∨ c.length ≤ overlap_sentences + 1 :=
  fun c hc => chunkerParts_bound tlen sents max_tokens overlap_sentences c hc

/-- Witness for `chunker_token_bound`: the middle chunk of a concrete run. -/
theorem chunker_token_bound_witness :
    sumTokens String.length ["aa", "bb"] ≤ 2 ∨
      (["aa", "bb"] : List String).length ≤ 1 + 1 :=
  chunker_token_bound String.length ["aa", "bb", "cc"] 2 1 ["aa", "bb"]
    (by decide)

/-- C4 (counterexample): three sentences of estimated length 2 with
max_tokens = 2 and overlap 1 — no sentence exceeds max_tokens, so the
oversized-sentence comma fallback never fires and the claim's sole exception
is vacuous — yet the run emits the chunk "aa bb", whose estimated length
exceeds max_tokens: the overlap seeding creates over-budget chunks outside
the claimed exception. -/
theorem chunker_token_bound_cex :
    (∀ s ∈ ["aa", "bb", "cc"], String.length s ≤ 2) ∧
    ¬ (∀ ch ∈ semantic_token_chunker String.length ["aa", "bb", "cc"] 2 1,
        String.length ch ≤ 2) := by
  decide

/-- The overlap relation between consecutive chunks: the later chunk begins
with exactly the last min(k, length) sentences of the earlier one. -/
def OverlapLink (k : Nat) (a b : List String) : Prop :=
  b.take (lastN k a).length = lastN k a

theorem OverlapLink.append_right {k : Nat} {a b : List String}
    (l : List String) (h : OverlapLink k a b) : OverlapLink k a (b ++ l) := by
  have hlen : (lastN k a).length ≤ b.length := by
    have hh := congrArg List.length h
    rw [List.length_take] at hh
    omega
  unfold OverlapLink at h ⊢
  rw [List.take_append_of_le_length hlen, h]

theorem OverlapLink.seed (k : Nat) (a : List String) (s : String) :
    OverlapLink k a (lastN k a ++ [s]) := by
  unfold OverlapLink
  exact List.take_left _ _

/-- The loop invariant for the overlap property, for runs in which the comma
fallback never fires: the emitted chunks are chained by OverlapLink, and the
current chunk is linked to the last emitted one. -/
structure OverlapInv (k : Nat) (st : ChunkState) : Prop where
  chain : List.Chain' (OverlapLink k) st.chunks
  link : ∀ x ∈ st.chunks.getLast?, OverlapLink k x st.cur

theorem stepSent_overlap_inv {tlen : String → Nat} {max_tokens k : Nat}
    (sent : String) (hsent : tlen sent ≤ max_tokens) (hk : 0 < k)
    {st : ChunkState} (h : OverlapInv k st) :
    OverlapInv k (stepSent tlen max_tokens k st sent) := by
  simp only [stepSent]
  rw [if_neg (by omega), if_pos hk]
  split
  · exact ⟨h.chain, fun x hx => (h.link x hx).append_right [sent]⟩
  · refine ⟨?_, ?_⟩
    · refine h.chain.append (List.chain'_singleton _) ?_
      intro x hx y hy
      obtain rfl : st.cur = y := by simpa using hy
      exact h.link x hx
    · intro x hx
      rw [List.getLast?_concat] at hx
      obtain rfl : st.cur = x := by simpa using hx
      exact OverlapLink.seed k st.cur sent

theorem foldl_overlap_inv {tlen : String → Nat} {max_tokens k : Nat}
    (hk : 0 < k) :
    ∀ (sents : List String), (∀ s ∈ sents, tlen s ≤ max_tokens) →
      ∀ st : ChunkState, OverlapInv k st →
        OverlapInv k (sents.foldl (stepSent tlen max_tokens k) st) := by
  intro sents
  induction sents with
  | nil => intro _ st h; exact h
  | cons s ss ih =>
    intro hs st h
    rw [List.foldl_cons]
    exact ih (fun x hx => hs x (List.mem_cons_of_mem s hx)) _
      (stepSent_overlap_inv s (hs s (List.mem_cons_self s ss)) hk h)

/-- C9 (amended): for overlap k > 0, on every input whose sentences all fit
max_tokens — so the oversized-sentence comma fallback, which resets the chunk
without carrying overlap, never fires — each chunk after the first begins
with exactly the last min(k, length of predecessor) sentences of the chunk
before it. -/
theorem chunker_overlap_chain (tlen : String → Nat) (sents : List String)
    (max_tokens k : Nat) (hk : 0 < k)
    (hs : ∀ s ∈ sents, tlen s ≤ max_tokens) :
    List.Chain' (fun a b => b.take (lastN k a).length = lastN k a)
      (chunkerParts tlen sents max_tokens k) := by
  have hbase : OverlapInv k ⟨[], [], 0⟩ :=
    ⟨List.chain'_nil, (fun x hx => by simp at hx)⟩
  have hinv := foldl_overlap_inv hk sents hs ⟨[], [], 0⟩ hbase
  simp only [chunkerParts]
  split
  · exact hinv.chain
  · refine hinv.chain.append (List.chain'_singleton _) ?_
    intro x hx y hy
    obtain rfl :
        (sents.foldl (stepSent tlen max_tokens k) ⟨[], [], 0⟩).cur = y := by
      simpa using hy
    exact hinv.link x hx

/-- Witness for `chunker_overlap_chain`: a three-chunk run with k = 1; each
chunk begins with the last sentence of its predecessor. -/
theorem chunker_overlap_chain_witness :
    List.Chain' (fun a b => b.take (lastN 1 a).length = lastN 1 a)
      (chunkerParts String.length ["aa", "bb", "cc"] 2 1) :=
  chunker_overlap_chain String.length ["aa", "bb", "cc"] 2 1
    (by decide) (by decide)

/-- C9 (counterexample): a single oversized sentence "aa,bb" split by the
comma fallback yields the two chunks "aa" and "bb" with overlap k = 1, and
the second chunk does not begin with the last sentence of the first — the
fallback resets the chunk without carrying any overlap. -/
theorem chunker_overlap_cex :
    chunkerParts String.length ["aa,bb"] 2 1 = [["aa"], ["bb"]] ∧
    (["bb"] : List String).take (lastN 1 ["aa"]).length ≠ lastN 1 ["aa"] := by
  decide
